import Mathlib

/-!
Verification of the frame-streaming color-reduction and image-assembly engine
of the videodna repository (`internal/dna/colors.go`).

The Go source is shallowly embedded as executable Lean definitions:

* byte buffers (`[]byte`) become `List Nat` whose entries are bytes (`≤ 255`
  is carried as a hypothesis where a theorem needs it);
* machine integers become `Nat` with explicit `% 256` where Go performs a
  truncating conversion to `uint8` (the `uint64` accumulators of
  `AverageColor` cannot overflow for any realistic row width, so they are
  modelled as `Nat`);
* Go's `float64` arithmetic inside `resizeImage`/`bilinear` is modelled with
  exact rational arithmetic (`ℚ`), with `Int.toNat ∘ Int.floor` for the
  truncating `uint32(...)` conversion of a non-negative value;
* Go's run-time panic on integer division by zero is modelled by `Option`
  (`goDiv`), so `AverageColor`/`AverageColorCol` are fallible;
* iteration over a Go `map` has unspecified order, so the `MostCommon*`
  reducers take the iteration order of the key set as an explicit argument;
* the `Generate` pipeline driver is modelled by `generateRun`, which
  consumes an in-memory byte stream in place of the decoder subprocess.
-/

/-- One RGB pixel as produced by the reducers (`color.RGBA` with `A = 255`
in the source; the constant alpha carries no information and is dropped). -/
structure Color where
  r : Nat
  g : Nat
  b : Nat
deriving DecidableEq

/-- Go integer division: panics (here: `none`) when the divisor is zero. -/
def goDiv (a b : Nat) : Option Nat :=
  if b = 0 then none else some (a / b)

/-- The three per-channel `uint64` accumulators of `AverageColor`
(`rSum`, `gSum`, `bSum` after the loop over `x < width`). -/
def avgSums (row : List Nat) (width : Nat) : Nat × Nat × Nat :=
  (List.range width).foldl
    (fun s x =>
      (s.1 + row.getD (x * 3) 0,
       s.2.1 + row.getD (x * 3 + 1) 0,
       s.2.2 + row.getD (x * 3 + 2) 0))
    (0, 0, 0)

/-- `AverageColor` (colors.go): per-channel mean of a row, `uint8(sum / n)`.
`none` models the division-by-zero panic for `width = 0`. -/
def AverageColor (row : List Nat) (width : Nat) : Option Color :=
  let s := avgSums row width
  match goDiv s.1 width, goDiv s.2.1 width, goDiv s.2.2 width with
  | some r, some g, some b => some ⟨r % 256, g % 256, b % 256⟩
  | _, _, _ => none

/-- `MinColor` (colors.go): per-channel minimum of a row, accumulators
initialised to 255. -/
def MinColor (row : List Nat) (width : Nat) : Color :=
  (List.range width).foldl
    (fun c x =>
      ⟨if row.getD (x * 3) 0 < c.r then row.getD (x * 3) 0 else c.r,
       if row.getD (x * 3 + 1) 0 < c.g then row.getD (x * 3 + 1) 0 else c.g,
       if row.getD (x * 3 + 2) 0 < c.b then row.getD (x * 3 + 2) 0 else c.b⟩)
    ⟨255, 255, 255⟩

/-- `MaxColor` (colors.go): per-channel maximum of a row, accumulators
initialised to 0. -/
def MaxColor (row : List Nat) (width : Nat) : Color :=
  (List.range width).foldl
    (fun c x =>
      ⟨if row.getD (x * 3) 0 > c.r then row.getD (x * 3) 0 else c.r,
       if row.getD (x * 3 + 1) 0 > c.g then row.getD (x * 3 + 1) 0 else c.g,
       if row.getD (x * 3 + 2) 0 > c.b then row.getD (x * 3 + 2) 0 else c.b⟩)
    ⟨0, 0, 0⟩

/-- The packed 24-bit key `uint32(buf[i])<<16 | uint32(buf[i+1])<<8 | uint32(buf[i+2])`. -/
def packAt (buf : List Nat) (i : Nat) : Nat :=
  buf.getD i 0 <<< 16 ||| buf.getD (i + 1) 0 <<< 8 ||| buf.getD (i + 2) 0

/-- Packed key of pixel `x` of a row (`i := x * 3` in the source). -/
def packPixel (row : List Nat) (x : Nat) : Nat :=
  packAt row (x * 3)

/-- The multiset of packed keys inserted into `colorCount` by
`MostCommonColor`; `colorCount[k]` is `(packedList row width).count k`. -/
def packedList (row : List Nat) (width : Nat) : List Nat :=
  (List.range width).map (packPixel row)

/-- The selection loop `for col, count := range colorCount` of
`MostCommonColor`: scan the keys in iteration order `order`, keeping the
first key whose count strictly exceeds the running maximum.  Go's map
iteration order is unspecified, so it is an explicit argument here. -/
def mostCommonScan (cnt : Nat → Nat) (order : List Nat) : Nat × Nat :=
  order.foldl (fun acc k => if cnt k > acc.1 then (cnt k, k) else acc) (0, 0)

/-- `MostCommonColor` (colors.go), parametrised by the map iteration order. -/
def MostCommonColorIter (row : List Nat) (width : Nat) (order : List Nat) : Color :=
  let keys := packedList row width
  let best := mostCommonScan (fun k => keys.count k) order
  ⟨best.2 >>> 16 &&& 255, best.2 >>> 8 &&& 255, best.2 &&& 255⟩

/-- `AverageColorCol` (colors.go): per-channel mean of column `col`,
reading pixel `y` of the column at byte offset `(y*width + col) * 3`. -/
def AverageColorCol (buf : List Nat) (col width height : Nat) : Option Color :=
  let s := (List.range height).foldl
    (fun s y =>
      (s.1 + buf.getD ((y * width + col) * 3) 0,
       s.2.1 + buf.getD ((y * width + col) * 3 + 1) 0,
       s.2.2 + buf.getD ((y * width + col) * 3 + 2) 0))
    (0, 0, 0)
  match goDiv s.1 height, goDiv s.2.1 height, goDiv s.2.2 height with
  | some r, some g, some b => some ⟨r % 256, g % 256, b % 256⟩
  | _, _, _ => none

/-- `MinColorCol` (colors.go). -/
def MinColorCol (buf : List Nat) (col width height : Nat) : Color :=
  (List.range height).foldl
    (fun c y =>
      ⟨if buf.getD ((y * width + col) * 3) 0 < c.r then buf.getD ((y * width + col) * 3) 0 else c.r,
       if buf.getD ((y * width + col) * 3 + 1) 0 < c.g then buf.getD ((y * width + col) * 3 + 1) 0 else c.g,
       if buf.getD ((y * width + col) * 3 + 2) 0 < c.b then buf.getD ((y * width + col) * 3 + 2) 0 else c.b⟩)
    ⟨255, 255, 255⟩

/-- `MaxColorCol` (colors.go). -/
def MaxColorCol (buf : List Nat) (col width height : Nat) : Color :=
  (List.range height).foldl
    (fun c y =>
      ⟨if buf.getD ((y * width + col) * 3) 0 > c.r then buf.getD ((y * width + col) * 3) 0 else c.r,
       if buf.getD ((y * width + col) * 3 + 1) 0 > c.g then buf.getD ((y * width + col) * 3 + 1) 0 else c.g,
       if buf.getD ((y * width + col) * 3 + 2) 0 > c.b then buf.getD ((y * width + col) * 3 + 2) 0 else c.b⟩)
    ⟨0, 0, 0⟩

/-- Packed keys of column `col` (inserted by `MostCommonColorCol`). -/
def packedColList (buf : List Nat) (col width height : Nat) : List Nat :=
  (List.range height).map (fun y => packAt buf ((y * width + col) * 3))

/-- `MostCommonColorCol` (colors.go), parametrised by map iteration order. -/
def MostCommonColorColIter (buf : List Nat) (col width height : Nat) (order : List Nat) : Color :=
  let keys := packedColList buf col width height
  let best := mostCommonScan (fun k => keys.count k) order
  ⟨best.2 >>> 16 &&& 255, best.2 >>> 8 &&& 255, best.2 &&& 255⟩

/-- One concrete admissible map iteration order (keys in some duplicate-free
order); used where a single order has to be fixed for a whole run. -/
def defaultOrder (keys : List Nat) : List Nat :=
  keys.dedup

/-- Specification-side view: the list of channel-`k` samples of a row
(`k = 0` is R, `1` is G, `2` is B). -/
def rowChannel (row : List Nat) (k width : Nat) : List Nat :=
  (List.range width).map (fun x => row.getD (x * 3 + k) 0)

/-- Specification-side view: the channel-`k` samples of column `col`,
gathered at byte offsets `(y*width + col) * 3 + k` for `y < height`. -/
def colChannel (buf : List Nat) (k col width height : Nat) : List Nat :=
  (List.range height).map (fun y => buf.getD ((y * width + col) * 3 + k) 0)

/-- `maxFrames := frameCount + frameCount/10 + 10` — the canvas capacity in
lines allocated by `Generate`/`GenerateWithLegend` before streaming. -/
def maxFrames (frameCount : Nat) : Nat :=
  frameCount + frameCount / 10 + 10

/-- An in-memory RGBA image with bounds `(0,0)-(width,height)` (Go
`image.RGBA` as used by the engine always has `Min = (0,0)`).  `pix` is the
backing pixel store; reads outside the bounds go through `colorAt`. -/
structure GoImage where
  width : Nat
  height : Nat
  pix : Nat → Nat → Color

/-- `img.At(x, y)`: the zero color outside the bounds (Go returns the zero
`color.RGBA` there). -/
def GoImage.colorAt (img : GoImage) (x y : Nat) : Color :=
  if x < img.width ∧ y < img.height then img.pix x y else ⟨0, 0, 0⟩

/-- `img.Set(x, y, c)`: a silent no-op when `(x, y)` is out of bounds
(`image.RGBA.Set` returns without writing in that case). -/
def GoImage.set (img : GoImage) (x y : Nat) (c : Color) : GoImage :=
  if x < img.width ∧ y < img.height then
    { img with pix := fun a b => if a = x ∧ b = y then c else img.pix a b }
  else img

/-- `img.SubImage(Rect(0, 0, w, h))`: the bounds are intersected with the
image bounds, the pixel store is shared. -/
def subImage (img : GoImage) (w h : Nat) : GoImage :=
  ⟨min w img.width, min h img.height, img.pix⟩

/-- The 16-bit channel value returned by `color.RGBA.RGBA()`:
`r |= r << 8`. -/
def rgba16 (c : Nat) : Nat :=
  c <<< 8 ||| c

/-- `bilinear` (colors.go): blend four 16-bit samples with the fractional
offsets; the final `uint32(...)` conversion truncates toward zero. -/
def bilinear (v00 v10 v01 v11 : Nat) (xFrac yFrac : ℚ) : Nat :=
  (⌊((v00 : ℚ) * (1 - xFrac) + (v10 : ℚ) * xFrac) * (1 - yFrac) +
     ((v01 : ℚ) * (1 - xFrac) + (v11 : ℚ) * xFrac) * yFrac⌋).toNat

/-- The body of the per-destination-pixel loop of `resizeImage`
(colors.go): map `(x, y)` to source coordinates, clamp the far neighbours,
blend with `bilinear`, and keep `uint8(channel >> 8)`. -/
def resizePixel (src : GoImage) (targetW targetH x y : Nat) : Color :=
  let srcW := src.width
  let srcH := src.height
  let srcX : ℚ := (x : ℚ) * (srcW : ℚ) / (targetW : ℚ)
  let srcY : ℚ := (y : ℚ) * (srcH : ℚ) / (targetH : ℚ)
  let x0 : Nat := (⌊srcX⌋).toNat
  let y0 : Nat := (⌊srcY⌋).toNat
  let x1 : Nat := if x0 + 1 ≥ srcW then srcW - 1 else x0 + 1
  let y1 : Nat := if y0 + 1 ≥ srcH then srcH - 1 else y0 + 1
  let xFrac : ℚ := srcX - (x0 : ℚ)
  let yFrac : ℚ := srcY - (y0 : ℚ)
  let c00 := src.colorAt x0 y0
  let c10 := src.colorAt x1 y0
  let c01 := src.colorAt x0 y1
  let c11 := src.colorAt x1 y1
  let r := bilinear (rgba16 c00.r) (rgba16 c10.r) (rgba16 c01.r) (rgba16 c11.r) xFrac yFrac
  let g := bilinear (rgba16 c00.g) (rgba16 c10.g) (rgba16 c01.g) (rgba16 c11.g) xFrac yFrac
  let b := bilinear (rgba16 c00.b) (rgba16 c10.b) (rgba16 c01.b) (rgba16 c11.b) xFrac yFrac
  ⟨r >>> 8 % 256, g >>> 8 % 256, b >>> 8 % 256⟩

/-- `resizeImage` (colors.go): a `targetW × targetH` image whose every
in-bounds pixel is produced by `resizePixel` (the destination starts as a
fresh zeroed `image.NewRGBA` and each in-bounds pixel is `Set`). -/
def resizeImage (src : GoImage) (targetW targetH : Nat) : GoImage :=
  ⟨targetW, targetH, fun x y =>
    if x < targetW ∧ y < targetH then resizePixel src targetW targetH x y else ⟨0, 0, 0⟩⟩

/-- A concrete 2×2 image with constant pixel `(3,4,5)`. -/
def testImage : GoImage :=
  ⟨2, 2, fun _ _ => ⟨3, 4, 5⟩⟩

/-- The validity check at the top of `Generate`/`GenerateWithLegend`:
`if frameCount == 0 || height == 0 { return error }`.  Note that `width`
is not inspected. -/
def invalidVideoProps (width height frameCount : Nat) : Bool :=
  frameCount == 0 || height == 0

/-- The only error the modelled pipeline can surface (the source returns
`fmt.Errorf("invalid video properties")`; I/O failures of the external
decoder subprocess are outside the model). -/
inductive GenError where
  | invalidVideoProperties
deriving DecidableEq

/-- The `switch mode` over the row reducers inside the streaming loop
(`default` falls through to `MostCommonColor`).  The `getD` default for
`average` is unreachable in the driver: a frame is only processed when
`width*height*3 ≥ 1`, hence `width ≥ 1` and the division succeeds. -/
def reduceRow (mode : String) (orderOf : List Nat → List Nat)
    (row : List Nat) (width : Nat) : Color :=
  if mode = "average" then (AverageColor row width).getD ⟨0, 0, 0⟩
  else if mode = "min" then MinColor row width
  else if mode = "max" then MaxColor row width
  else MostCommonColorIter row width (orderOf (packedList row width))

/-- The `switch mode` over the column reducers (vertical orientation). -/
def reduceCol (mode : String) (orderOf : List Nat → List Nat)
    (buf : List Nat) (col width height : Nat) : Color :=
  if mode = "average" then (AverageColorCol buf col width height).getD ⟨0, 0, 0⟩
  else if mode = "min" then MinColorCol buf col width height
  else if mode = "max" then MaxColorCol buf col width height
  else MostCommonColorColIter buf col width height (orderOf (packedColList buf col width height))

/-- The per-frame body of the streaming loop: one `Set` per column
(vertical) or per row (horizontal); the row slice is
`frameBuf[y*width*3 : y*width*3 + width*3]`. -/
def processFrame (mode : String) (orderOf : List Nat → List Nat) (vertical : Bool)
    (width height : Nat) (frame : List Nat) (frameIdx : Nat) (img : GoImage) : GoImage :=
  if vertical then
    (List.range width).foldl
      (fun im x => im.set x frameIdx (reduceCol mode orderOf frame x width height)) img
  else
    (List.range height).foldl
      (fun im y =>
        im.set frameIdx y
          (reduceRow mode orderOf ((frame.drop (y * width * 3)).take (width * 3)) width)) img

/-- The streaming loop over the successfully read full frames, threading
`frameIdx` and the canvas. -/
def streamFrames (mode : String) (orderOf : List Nat → List Nat) (vertical : Bool)
    (width height : Nat) : List (List Nat) → Nat → GoImage → Nat × GoImage
  | [], frameIdx, img => (frameIdx, img)
  | frame :: rest, frameIdx, img =>
      streamFrames mode orderOf vertical width height rest (frameIdx + 1)
        (processFrame mode orderOf vertical width height frame frameIdx img)

/-- Fuel-indexed splitting of the byte stream into `frameSize`-byte chunks;
the fuel (initially the stream length) only forces termination. -/
def chunkFramesAux : Nat → Nat → List Nat → List (List Nat)
  | 0, _, _ => []
  | fuel + 1, n, s =>
      if n = 0 ∨ s.length < n then [] else s.take n :: chunkFramesAux fuel n (s.drop n)

/-- The sequence of full frames delivered by the `io.ReadFull` loop: read
`frameSize` bytes while at least that many remain; a final short chunk
(`io.ErrUnexpectedEOF`) or clean end (`io.EOF`) both `break` out of the
loop, so any trailing fragment shorter than one frame is discarded.  (For
`frameSize = 0` — width 0 — the Go loop would never terminate; the model
returns no frames, a case no theorem below relies on.) -/
def chunkFrames (n : Nat) (s : List Nat) : List (List Nat) :=
  chunkFramesAux s.length n s

/-- The pre-sized canvas `image.NewRGBA(...)`: `width × maxFrames` when
vertical, `maxFrames × height` otherwise, zero-initialised. -/
def initCanvas (vertical : Bool) (width height frameCount : Nat) : GoImage :=
  if vertical then ⟨width, maxFrames frameCount, fun _ _ => ⟨0, 0, 0⟩⟩
  else ⟨maxFrames frameCount, height, fun _ _ => ⟨0, 0, 0⟩⟩

/-- The finalize step: crop via `SubImage` to `width × frameIdx`
(vertical) or `frameIdx × height` (horizontal). -/
def finalizeRun (vertical : Bool) (width height : Nat) (res : Nat × GoImage) : GoImage :=
  if vertical then subImage res.2 width res.1 else subImage res.2 res.1 height

/-- `Generate` (colors.go) against an in-memory decoder byte stream, up to
and including the finalize crop (no resize, border, legend or PNG
encoding): validate the probed properties, allocate the canvas, stream all
full frames, crop to the frame count actually processed. -/
def generateRun (mode : String) (vertical : Bool) (orderOf : List Nat → List Nat)
    (width height frameCount : Nat) (stream : List Nat) : Except GenError GoImage :=
  if invalidVideoProps width height frameCount then
    Except.error GenError.invalidVideoProperties
  else
    Except.ok
      (finalizeRun vertical width height
        (streamFrames mode orderOf vertical width height
          (chunkFrames (width * height * 3) stream) 0
          (initCanvas vertical width height frameCount)))

/-- Whether a run produced an image. -/
def runSucceeds (r : Except GenError GoImage) : Bool :=
  match r with
  | Except.ok _ => true
  | Except.error _ => false

/-- The dimensions of the image produced by a run. -/
def runDims (r : Except GenError GoImage) : Option (Nat × Nat) :=
  match r with
  | Except.ok img => some (img.width, img.height)
  | Except.error _ => none

/-- Whether a run failed with the `invalid video properties` error. -/
def isInvalidPropsError (r : Except GenError GoImage) : Bool :=
  match r with
  | Except.error GenError.invalidVideoProperties => true
  | _ => false

/-- A left fold accumulating three independent sums is the triple of the
channel sums. -/
theorem foldl_triple_add (l : List Nat) (f1 f2 f3 : Nat → Nat) (a b c : Nat) :
    l.foldl (fun s x => (s.1 + f1 x, s.2.1 + f2 x, s.2.2 + f3 x)) (a, b, c) =
      (a + (l.map f1).sum, b + (l.map f2).sum, c + (l.map f3).sum) := by
  induction l generalizing a b c with
  | nil => simp
  | cons x xs ih =>
      simp only [List.foldl_cons, List.map_cons, List.sum_cons]
      rw [ih]
      simp [Nat.add_assoc]

/-- A left fold over `Color` whose three components are updated
independently is the triple of three scalar folds. -/
theorem foldl_color_comp (l : List Nat) (u1 u2 u3 : Nat → Nat → Nat) (init : Color) :
    l.foldl (fun c x => (⟨u1 c.r x, u2 c.g x, u3 c.b x⟩ : Color)) init =
      ⟨l.foldl u1 init.r, l.foldl u2 init.g, l.foldl u3 init.b⟩ := by
  induction l generalizing init with
  | nil => rfl
  | cons x xs ih => simp only [List.foldl_cons]; rw [ih]

/-- Two left folds agree when their step functions agree on the list's
elements. -/
theorem foldl_congr_of_mem {α β : Type} (l : List α) (f g : β → α → β) (b : β)
    (h : ∀ acc a, a ∈ l → f acc a = g acc a) : l.foldl f b = l.foldl g b := by
  induction l generalizing b with
  | nil => rfl
  | cons x xs ih =>
      simp only [List.foldl_cons]
      rw [h b x (by simp)]
      exact ih _ (fun acc a ha => h acc a (by simp [ha]))

/-- `getD` with default 0 is bounded by 255 on byte lists. -/
theorem getD_le_of_all (l : List Nat) (i : Nat) (h : ∀ v ∈ l, v ≤ 255) :
    l.getD i 0 ≤ 255 := by
  rw [List.getD_eq_getElem?_getD]
  rcases h2 : l[i]? with _ | v
  · simp
  · simpa using h v (List.getElem?_mem h2)

/-- Taking a prefix does not change `getD` below the cut. -/
theorem getD_take_eq (l : List Nat) (n i : Nat) (h : i < n) :
    (l.take n).getD i 0 = l.getD i 0 := by
  rw [List.getD_eq_getElem?_getD, List.getD_eq_getElem?_getD,
    List.getElem?_take_of_lt h]

/-- The `if f x < c then f x else c` fold starting at 255 computes the
minimum of `f` over `range n`: its value is attained and is a lower bound
(given `1 ≤ n` and byte-bounded values). -/
theorem fold_min_attained (f : Nat → Nat) :
    ∀ n : Nat, 1 ≤ n → (∀ x, x < n → f x ≤ 255) →
      ((List.range n).foldl (fun c x => if f x < c then f x else c) 255) ∈
          (List.range n).map f ∧
        ∀ v ∈ (List.range n).map f,
          ((List.range n).foldl (fun c x => if f x < c then f x else c) 255) ≤ v := by
  intro n
  induction n with
  | zero => omega
  | succ n ih =>
      intro _ hb
      rcases Nat.eq_zero_or_pos n with hn | hn
      · subst hn
        simp only [List.range_succ, List.range_zero, List.nil_append,
          List.map_cons, List.map_nil, List.foldl_cons, List.foldl_nil,
          List.mem_singleton]
        have h0 : f 0 ≤ 255 := hb 0 (by omega)
        by_cases h : f 0 < 255
        · simp [h]
        · constructor
          · simp [h]; omega
          · intro v hv; subst hv; simp [h]; omega
      · obtain ⟨hmem, hlb⟩ := ih hn (fun x hx => hb x (by omega))
        set m := (List.range n).foldl (fun c x => if f x < c then f x else c) 255 with hm
        rw [List.range_succ, List.foldl_append, List.map_append]
        simp only [List.foldl_cons, List.foldl_nil, List.map_cons, List.map_nil, ← hm]
        constructor
        · by_cases h : f n < m
          · simp [h]
          · simp only [h, if_false]
            exact List.mem_append_left _ hmem
        · intro v hv
          rcases List.mem_append.mp hv with hv | hv
          · by_cases h : f n < m
            · simp only [h, if_true]
              exact le_trans (le_of_lt h) (hlb v hv)
            · simpa [h] using hlb v hv
          · simp only [List.mem_singleton] at hv
            subst hv
            by_cases h : f n < m
            · simp [h]
            · simpa [h] using Nat.le_of_not_lt h

/-- The `if f x > c then f x else c` fold starting at 0 computes the
maximum of `f` over `range n`: its value is attained and is an upper
bound (given `1 ≤ n`). -/
theorem fold_max_attained (f : Nat → Nat) :
    ∀ n : Nat, 1 ≤ n →
      ((List.range n).foldl (fun c x => if f x > c then f x else c) 0) ∈
          (List.range n).map f ∧
        ∀ v ∈ (List.range n).map f,
          v ≤ ((List.range n).foldl (fun c x => if f x > c then f x else c) 0) := by
  intro n
  induction n with
  | zero => omega
  | succ n ih =>
      intro _
      rcases Nat.eq_zero_or_pos n with hn | hn
      · subst hn
        simp only [List.range_succ, List.range_zero, List.nil_append,
          List.map_cons, List.map_nil, List.foldl_cons, List.foldl_nil,
          List.mem_singleton]
        by_cases h : f 0 > 0
        · simp [h]
        · constructor
          · simp [h]; omega
          · intro v hv; subst hv; simp [h]; omega
      · obtain ⟨hmem, hub⟩ := ih hn
        set m := (List.range n).foldl (fun c x => if f x > c then f x else c) 0 with hm
        rw [List.range_succ, List.foldl_append, List.map_append]
        simp only [List.foldl_cons, List.foldl_nil, List.map_cons, List.map_nil, ← hm]
        constructor
        · by_cases h : f n > m
          · simp [h]
          · simp only [h, if_false]
            exact List.mem_append_left _ hmem
        · intro v hv
          rcases List.mem_append.mp hv with hv | hv
          · by_cases h : f n > m
            · simp only [h, if_true]
              exact le_trans (hub v hv) (le_of_lt h)
            · simpa [h] using hub v hv
          · simp only [List.mem_singleton] at hv
            subst hv
            by_cases h : f n > m
            · simp [h]
            · simpa [h] using Nat.le_of_not_lt h

/-- The fuel argument of `chunkFramesAux` is irrelevant once it covers the
stream length. -/
theorem chunkFramesAux_congr (n : Nat) :
    ∀ f1 f2 : Nat, ∀ s : List Nat, s.length ≤ f1 → s.length ≤ f2 →
      chunkFramesAux f1 n s = chunkFramesAux f2 n s := by
  intro f1
  induction f1 with
  | zero =>
      intro f2 s h1 _
      have hs : s = [] := List.eq_nil_of_length_eq_zero (by omega)
      subst hs
      cases f2 with
      | zero => rfl
      | succ f2 =>
          simp only [chunkFramesAux]
          rw [if_pos]
          simp
          omega
  | succ f1 ih =>
      intro f2 s h1 h2
      cases f2 with
      | zero =>
          have hs : s = [] := List.eq_nil_of_length_eq_zero (by omega)
          subst hs
          simp only [chunkFramesAux]
          rw [if_pos]
          simp
          omega
      | succ f2 =>
          simp only [chunkFramesAux]
          by_cases hc : n = 0 ∨ s.length < n
          · rw [if_pos hc, if_pos hc]
          · rw [if_neg hc, if_neg hc]
            have hn : 1 ≤ n := by omega
            have hd : (s.drop n).length = s.length - n := by simp
            rw [ih f2 (s.drop n) (by omega) (by omega)]

/-- Reading one full frame from a sufficiently long stream. -/
theorem chunkFrames_step (n : Nat) (s : List Nat) (hn : 1 ≤ n) (hs : n ≤ s.length) :
    chunkFrames n s = s.take n :: chunkFrames n (s.drop n) := by
  unfold chunkFrames
  obtain ⟨m, hm⟩ : ∃ m, s.length = m + 1 := ⟨s.length - 1, by omega⟩
  rw [hm]
  simp only [chunkFramesAux]
  rw [if_neg (by omega)]
  congr 1
  exact chunkFramesAux_congr n m (s.drop n).length (s.drop n) (by simp; omega) (by omega)

/-- A stream shorter than one frame yields no frames. -/
theorem chunkFrames_short (n : Nat) (s : List Nat) (h : s.length < n) :
    chunkFrames n s = [] := by
  unfold chunkFrames
  cases hm : s.length with
  | zero => rfl
  | succ m =>
      simp only [chunkFramesAux]
      rw [if_pos (Or.inr (by omega))]

/-- The `io.ReadFull` loop recovers exactly the concatenated full frames
and discards a trailing fragment shorter than one frame. -/
theorem chunkFrames_join_append (n : Nat) (frames : List (List Nat)) (extra : List Nat)
    (hn : 1 ≤ n) (hlen : ∀ f ∈ frames, f.length = n) (hextra : extra.length < n) :
    chunkFrames n (frames.flatten ++ extra) = frames := by
  induction frames with
  | nil => simpa using chunkFrames_short n extra hextra
  | cons f fs ih =>
      have hf : f.length = n := hlen f (by simp)
      have hlong : n ≤ (((f :: fs).flatten) ++ extra).length := by
        simp [List.length_append, hf]
      rw [List.flatten_cons, List.append_assoc,
        chunkFrames_step n _ hn (by simpa using hlong),
        List.take_left' hf, List.drop_left' hf]
      exact congrArg _ (ih (fun g hg => hlen g (by simp [hg])))

/-- Special case: a stream of exactly whole frames. -/
theorem chunkFrames_join (n : Nat) (frames : List (List Nat))
    (hn : 1 ≤ n) (hlen : ∀ f ∈ frames, f.length = n) :
    chunkFrames n frames.flatten = frames := by
  have h := chunkFrames_join_append n frames [] hn hlen (by simpa using hn)
  simpa using h

/-- `Set` never changes the image bounds. -/
theorem GoImage.set_width (img : GoImage) (x y : Nat) (c : Color) :
    (img.set x y c).width = img.width := by
  unfold GoImage.set
  split <;> rfl

/-- `Set` never changes the image bounds. -/
theorem GoImage.set_height (img : GoImage) (x y : Nat) (c : Color) :
    (img.set x y c).height = img.height := by
  unfold GoImage.set
  split <;> rfl

/-- A fold of bound-preserving updates preserves the bounds. -/
theorem foldl_set_width (l : List Nat) (g : GoImage → Nat → GoImage)
    (hg : ∀ im i, (g im i).width = im.width) :
    ∀ img : GoImage, (l.foldl g img).width = img.width := by
  induction l with
  | nil => intro img; rfl
  | cons x xs ih => intro img; simp only [List.foldl_cons]; rw [ih, hg]

/-- A fold of bound-preserving updates preserves the bounds. -/
theorem foldl_set_height (l : List Nat) (g : GoImage → Nat → GoImage)
    (hg : ∀ im i, (g im i).height = im.height) :
    ∀ img : GoImage, (l.foldl g img).height = img.height := by
  induction l with
  | nil => intro img; rfl
  | cons x xs ih => intro img; simp only [List.foldl_cons]; rw [ih, hg]

/-- Processing a frame never changes the canvas bounds. -/
theorem processFrame_width (mode : String) (orderOf : List Nat → List Nat) (vertical : Bool)
    (width height : Nat) (frame : List Nat) (frameIdx : Nat) (img : GoImage) :
    (processFrame mode orderOf vertical width height frame frameIdx img).width = img.width := by
  unfold processFrame
  split
  · exact foldl_set_width _ _ (fun im i => GoImage.set_width im i frameIdx _) img
  · exact foldl_set_width _ _ (fun im i => GoImage.set_width im frameIdx i _) img

/-- Processing a frame never changes the canvas bounds. -/
theorem processFrame_height (mode : String) (orderOf : List Nat → List Nat) (vertical : Bool)
    (width height : Nat) (frame : List Nat) (frameIdx : Nat) (img : GoImage) :
    (processFrame mode orderOf vertical width height frame frameIdx img).height = img.height := by
  unfold processFrame
  split
  · exact foldl_set_height _ _ (fun im i => GoImage.set_height im i frameIdx _) img
  · exact foldl_set_height _ _ (fun im i => GoImage.set_height im frameIdx i _) img

/-- After the streaming loop, `frameIdx` has advanced by one per frame. -/
theorem streamFrames_fst (mode : String) (orderOf : List Nat → List Nat) (vertical : Bool)
    (width height : Nat) :
    ∀ (fs : List (List Nat)) (i : Nat) (img : GoImage),
      (streamFrames mode orderOf vertical width height fs i img).1 = i + fs.length := by
  intro fs
  induction fs with
  | nil => intro i img; simp [streamFrames]
  | cons f fs ih =>
      intro i img
      simp only [streamFrames, List.length_cons]
      rw [ih]
      omega

/-- The streaming loop never changes the canvas bounds. -/
theorem streamFrames_width (mode : String) (orderOf : List Nat → List Nat) (vertical : Bool)
    (width height : Nat) :
    ∀ (fs : List (List Nat)) (i : Nat) (img : GoImage),
      (streamFrames mode orderOf vertical width height fs i img).2.width = img.width := by
  intro fs
  induction fs with
  | nil => intro i img; rfl
  | cons f fs ih =>
      intro i img
      simp only [streamFrames]
      rw [ih, processFrame_width]

/-- The streaming loop never changes the canvas bounds. -/
theorem streamFrames_height (mode : String) (orderOf : List Nat → List Nat) (vertical : Bool)
    (width height : Nat) :
    ∀ (fs : List (List Nat)) (i : Nat) (img : GoImage),
      (streamFrames mode orderOf vertical width height fs i img).2.height = img.height := by
  intro fs
  induction fs with
  | nil => intro i img; rfl
  | cons f fs ih =>
      intro i img
      simp only [streamFrames]
      rw [ih, processFrame_height]

/-- Dimensions of the finalized image of a run fed exactly `frames`: the
growing axis is cropped to `min frames.length capacity`, the fixed axis
keeps the video's dimension. -/
theorem generateRun_dims (mode : String) (orderOf : List Nat → List Nat) (vertical : Bool)
    (width height frameCount : Nat) (frames : List (List Nat))
    (hW : 1 ≤ width) (hH : 1 ≤ height) (hF : 1 ≤ frameCount)
    (hlen : ∀ f ∈ frames, f.length = width * height * 3) :
    runDims (generateRun mode vertical orderOf width height frameCount frames.flatten) =
      some (if vertical then width else min frames.length (maxFrames frameCount),
            if vertical then min frames.length (maxFrames frameCount) else height) := by
  have hn : 1 ≤ width * height * 3 :=
    Nat.mul_pos (Nat.mul_pos hW hH) (by omega)
  have hinv : invalidVideoProps width height frameCount = false := by
    simp [invalidVideoProps]
    omega
  unfold generateRun
  rw [hinv]
  simp only [Bool.false_eq_true, if_false]
  rw [chunkFrames_join _ _ hn hlen]
  cases vertical with
  | false =>
      simp only [runDims, finalizeRun, if_false, subImage, Bool.false_eq_true]
      rw [streamFrames_fst, streamFrames_width, streamFrames_height]
      simp [initCanvas, Nat.min_self]
  | true =>
      simp only [runDims, finalizeRun, if_true, subImage]
      rw [streamFrames_fst, streamFrames_width, streamFrames_height]
      simp [initCanvas, Nat.min_self]

/-- A run whose dimensions are known has succeeded. -/
theorem runSucceeds_of_dims (r : Except GenError GoImage) (d : Nat × Nat)
    (h : runDims r = some d) : runSucceeds r = true := by
  cases r with
  | ok img => rfl
  | error e => simp [runDims] at h

set_option maxRecDepth 4096 in
/-- Round-tripping a byte through the 16-bit channel encoding and the
final `uint8(v >> 8)` conversion is the identity. -/
theorem rgba16_roundtrip : ∀ c : Nat, c < 256 → rgba16 c >>> 8 % 256 = c := by
  decide

/-- With both fractional offsets zero, `bilinear` returns the first sample
unchanged. -/
theorem bilinear_zero_fracs (v00 v10 v01 v11 : Nat) :
    bilinear v00 v10 v01 v11 0 0 = v00 := by
  unfold bilinear
  norm_num

/-- `resizePixel` at identity target size reproduces the source pixel. -/
theorem resizePixel_id (src : GoImage) (x y : Nat)
    (hx : x < src.width) (hy : y < src.height)
    (hr : (src.pix x y).r ≤ 255) (hg : (src.pix x y).g ≤ 255) (hb : (src.pix x y).b ≤ 255) :
    resizePixel src src.width src.height x y = src.pix x y := by
  have hW : (src.width : ℚ) ≠ 0 := by
    exact_mod_cast Nat.pos_iff_ne_zero.mp (by omega)
  have hH : (src.height : ℚ) ≠ 0 := by
    exact_mod_cast Nat.pos_iff_ne_zero.mp (by omega)
  have hsx : (x : ℚ) * (src.width : ℚ) / (src.width : ℚ) = (x : ℚ) :=
    mul_div_cancel_right₀ _ hW
  have hsy : (y : ℚ) * (src.height : ℚ) / (src.height : ℚ) = (y : ℚ) :=
    mul_div_cancel_right₀ _ hH
  simp only [resizePixel]
  rw [hsx, hsy]
  rw [Int.floor_natCast, Int.floor_natCast, Int.toNat_natCast, Int.toNat_natCast]
  rw [sub_self, sub_self]
  rw [bilinear_zero_fracs, bilinear_zero_fracs, bilinear_zero_fracs]
  have hat : src.colorAt x y = src.pix x y := by
    simp [GoImage.colorAt, hx, hy]
  rw [hat]
  rw [rgba16_roundtrip _ (by omega), rgba16_roundtrip _ (by omega),
    rgba16_roundtrip _ (by omega)]

/-- Claim C3: for every `width ≥ 1` and byte row buffer, `AverageColor`
returns per channel (independently for R, G, B) the integer-truncated mean
of that channel's samples over the `width` pixels, and each result lies in
`[0, 255]`.  (The spec's 2×2 scenario rows are the witness.) -/
theorem C3_average_mean (row : List Nat) (width : Nat)
    (hw : 1 ≤ width) (hbytes : ∀ v ∈ row, v ≤ 255) :
    AverageColor row width =
      some ⟨(rowChannel row 0 width).sum / width,
            (rowChannel row 1 width).sum / width,
            (rowChannel row 2 width).sum / width⟩ ∧
    (rowChannel row 0 width).sum / width ≤ 255 ∧
    (rowChannel row 1 width).sum / width ≤ 255 ∧
    (rowChannel row 2 width).sum / width ≤ 255 := by
  have hw0 : width ≠ 0 := by omega
  have hsum : avgSums row width =
      ((rowChannel row 0 width).sum, (rowChannel row 1 width).sum,
        (rowChannel row 2 width).sum) := by
    have h := foldl_triple_add (List.range width)
      (fun x => row.getD (x * 3) 0) (fun x => row.getD (x * 3 + 1) 0)
      (fun x => row.getD (x * 3 + 2) 0) 0 0 0
    simpa [avgSums, rowChannel] using h
  have hdivle : ∀ k, (rowChannel row k width).sum / width ≤ 255 := by
    intro k
    have hmem : ∀ v ∈ rowChannel row k width, v ≤ 255 := by
      intro v hv
      obtain ⟨x, hx, rfl⟩ := List.mem_map.mp hv
      exact getD_le_of_all row _ hbytes
    have hsle : (rowChannel row k width).sum ≤ width * 255 := by
      have h1 := List.sum_le_card_nsmul (rowChannel row k width) 255 hmem
      simpa [rowChannel, smul_eq_mul] using h1
    have h2 := Nat.div_le_div_right (c := width) hsle
    rwa [Nat.mul_div_cancel_left _ (by omega)] at h2
  refine ⟨?_, hdivle 0, hdivle 1, hdivle 2⟩
  unfold AverageColor
  rw [hsum]
  have hm : ∀ k, (rowChannel row k width).sum / width % 256 =
      (rowChannel row k width).sum / width :=
    fun k => Nat.mod_eq_of_lt (lt_of_le_of_lt (hdivle k) (by norm_num))
  simp only [goDiv, hw0, if_false]
  rw [hm 0, hm 1, hm 2]

/-- Witness for C3: the spec's 2×2 `Average` scenario — row 0 with pixels
`(0,0,0),(255,255,255)` reduces to `(127,127,127)`, row 1 with
`(10,20,30),(20,10,0)` reduces to `(15,15,15)`. -/
theorem C3_average_mean_witness :
    AverageColor [0, 0, 0, 255, 255, 255] 2 = some ⟨127, 127, 127⟩ ∧
    AverageColor [10, 20, 30, 20, 10, 0] 2 = some ⟨15, 15, 15⟩ := by
  have h1 := C3_average_mean [0, 0, 0, 255, 255, 255] 2 (by decide) (by decide)
  have h2 := C3_average_mean [10, 20, 30, 20, 10, 0] 2 (by decide) (by decide)
  exact ⟨h1.1.trans (by decide), h2.1.trans (by decide)⟩

/-- Claim C4 counterexample: at `frameCountEstimate = 11` the allocated
capacity is `11 + 11/10 + 10 = 22`, while `ceil(11 * 1.1) + 10 = 23` —
the code floors, it does not take the ceiling. -/
theorem C4_capacity_counterexample :
    (maxFrames 11 : ℤ) ≠ ⌈(11 : ℚ) * (11 / 10)⌉ + 10 := by
  have hc : ⌈(11 : ℚ) * (11 / 10)⌉ = 13 := by
    rw [Int.ceil_eq_iff]
    norm_num
  rw [hc]
  norm_num [maxFrames]

/-- Claim C4 (amended): the capacity is
`frameCount + frameCount/10 + 10` with flooring integer division, i.e.
`⌊n * 1.1⌋ + 10`; the spec's example `n = 10 ↦ 21` still holds. -/
theorem C4_capacity_floor (n : Nat) :
    maxFrames n = ⌊(n : ℚ) * (11 / 10)⌋₊ + 10 ∧ maxFrames 10 = 21 := by
  constructor
  · have h : ((n : ℚ) * (11 / 10)) = ((11 * n : ℕ) : ℚ) / ((10 : ℕ) : ℚ) := by
      push_cast
      ring
    rw [h, Nat.floor_div_nat, Nat.floor_natCast]
    unfold maxFrames
    omega
  · rfl

/-- Claim C5: the `MostCommon` reducer is *not* deterministic — on the
row `(0,0,0),(0,0,1)` the two keys `0` and `1` are tied at count 1, and
the two admissible map iteration orders `[0,1]` and `[1,0]` (both
permutations of the key set) give different results. -/
theorem C5_mostcommon_nondeterministic :
    packedList [0, 0, 0, 0, 0, 1] 2 = [0, 1] ∧
    List.Perm [1, 0] (defaultOrder (packedList [0, 0, 0, 0, 0, 1] 2)) ∧
    MostCommonColorIter [0, 0, 0, 0, 0, 1] 2 [0, 1] = ⟨0, 0, 0⟩ ∧
    MostCommonColorIter [0, 0, 0, 0, 0, 1] 2 [1, 0] = ⟨0, 0, 1⟩ ∧
    MostCommonColorIter [0, 0, 0, 0, 0, 1] 2 [0, 1] ≠
      MostCommonColorIter [0, 0, 0, 0, 0, 1] 2 [1, 0] := by
  decide

/-- Claim C7: resampling at identity size is the identity transform — for
every image (with byte-valued channels) and target dimensions equal to the
source dimensions, `resizeImage` keeps the dimensions and reproduces every
pixel's R, G, B values exactly. -/
theorem C7_resize_identity (src : GoImage)
    (hbytes : ∀ a b : Nat,
      (src.pix a b).r ≤ 255 ∧ (src.pix a b).g ≤ 255 ∧ (src.pix a b).b ≤ 255) :
    (resizeImage src src.width src.height).width = src.width ∧
    (resizeImage src src.width src.height).height = src.height ∧
    ∀ x y : Nat, x < src.width → y < src.height →
      (resizeImage src src.width src.height).pix x y = src.pix x y := by
  refine ⟨rfl, rfl, ?_⟩
  intro x y hx hy
  have h := hbytes x y
  simp only [resizeImage]
  rw [if_pos ⟨hx, hy⟩]
  exact resizePixel_id src x y hx hy h.1 h.2.1 h.2.2

/-- Witness for C7 on a concrete 2×2 image. -/
theorem C7_resize_identity_witness :
    (resizeImage testImage testImage.width testImage.height).width = testImage.width ∧
    (resizeImage testImage testImage.width testImage.height).pix 1 0 = testImage.pix 1 0 := by
  have h := C7_resize_identity testImage
    (fun a b => by refine ⟨?_, ?_, ?_⟩ <;> norm_num [testImage])
  exact ⟨h.1, h.2.2 1 0 (by decide) (by decide)⟩

/-- Claim C10: with `width ≥ 1` and a row of at least `3*width` bytes the
four row reducers only read in-bounds indices — each reducer depends only
on the first `3*width` bytes of the buffer — and the only division
(`AverageColor`'s per-channel `sum / width`) has a nonzero divisor; the
precondition is necessary: at `width = 0` the division's divisor is zero
(a Go run-time panic, modelled as `none`). -/
theorem C10_reducer_safety (row : List Nat) (width : Nat) (order : List Nat)
    (hw : 1 ≤ width) (hlen : 3 * width ≤ row.length) :
    (AverageColor row width).isSome = true ∧
    AverageColor (row.take (3 * width)) width = AverageColor row width ∧
    MinColor (row.take (3 * width)) width = MinColor row width ∧
    MaxColor (row.take (3 * width)) width = MaxColor row width ∧
    MostCommonColorIter (row.take (3 * width)) width order =
      MostCommonColorIter row width order ∧
    AverageColor row 0 = none := by
  have hw0 : width ≠ 0 := by omega
  have hget : ∀ i, i < 3 * width → (row.take (3 * width)).getD i 0 = row.getD i 0 :=
    fun i hi => getD_take_eq row (3 * width) i hi
  have hsums : avgSums (row.take (3 * width)) width = avgSums row width := by
    unfold avgSums
    refine foldl_congr_of_mem _ _ _ _ ?_
    intro acc x hx
    have hx3 : x < width := List.mem_range.mp hx
    rw [hget (x * 3) (by omega), hget (x * 3 + 1) (by omega), hget (x * 3 + 2) (by omega)]
  refine ⟨?_, ?_, ?_, ?_, ?_, ?_⟩
  · simp [AverageColor, goDiv, hw0]
  · unfold AverageColor
    rw [hsums]
  · unfold MinColor
    refine foldl_congr_of_mem _ _ _ _ ?_
    intro acc x hx
    have hx3 : x < width := List.mem_range.mp hx
    rw [hget (x * 3) (by omega), hget (x * 3 + 1) (by omega), hget (x * 3 + 2) (by omega)]
  · unfold MaxColor
    refine foldl_congr_of_mem _ _ _ _ ?_
    intro acc x hx
    have hx3 : x < width := List.mem_range.mp hx
    rw [hget (x * 3) (by omega), hget (x * 3 + 1) (by omega), hget (x * 3 + 2) (by omega)]
  · have hpack : packedList (row.take (3 * width)) width = packedList row width := by
      unfold packedList
      refine List.map_congr_left ?_
      intro x hx
      have hx3 : x < width := List.mem_range.mp hx
      unfold packPixel packAt
      rw [hget (x * 3) (by omega), hget (x * 3 + 1) (by omega), hget (x * 3 + 2) (by omega)]
    unfold MostCommonColorIter
    rw [hpack]
  · simp [AverageColor, goDiv]

/-- Witness for C10 at a concrete one-pixel row. -/
theorem C10_reducer_safety_witness :
    (AverageColor [1, 2, 3] 1).isSome = true ∧
    AverageColor ([1, 2, 3].take (3 * 1)) 1 = AverageColor [1, 2, 3] 1 ∧
    MinColor ([1, 2, 3].take (3 * 1)) 1 = MinColor [1, 2, 3] 1 ∧
    MaxColor ([1, 2, 3].take (3 * 1)) 1 = MaxColor [1, 2, 3] 1 ∧
    MostCommonColorIter ([1, 2, 3].take (3 * 1)) 1 [66051] =
      MostCommonColorIter [1, 2, 3] 1 [66051] ∧
    AverageColor [1, 2, 3] 0 = none :=
  C10_reducer_safety [1, 2, 3] 1 [66051] (by decide) (by decide)

/-- The fold of `MinColor`-style updates computes the `List.minimum` of
the sampled channel. -/
theorem minimum_of_fold (f : Nat → Nat) (n : Nat) (hn : 1 ≤ n)
    (hb : ∀ x, x < n → f x ≤ 255) :
    ((List.range n).map f).minimum =
      (((List.range n).foldl (fun c x => if f x < c then f x else c) 255 : Nat) :
        WithTop Nat) := by
  obtain ⟨hmem, hlb⟩ := fold_min_attained f n hn hb
  exact List.minimum_eq_coe_iff.mpr ⟨hmem, hlb⟩

/-- The fold of `MaxColor`-style updates computes the `List.maximum` of
the sampled channel. -/
theorem maximum_of_fold (f : Nat → Nat) (n : Nat) (hn : 1 ≤ n) :
    ((List.range n).map f).maximum =
      (((List.range n).foldl (fun c x => if f x > c then f x else c) 0 : Nat) :
        WithBot Nat) := by
  obtain ⟨hmem, hub⟩ := fold_max_attained f n hn
  exact List.maximum_eq_coe_iff.mpr ⟨hmem, hub⟩

/-- Claim C9: for `width ≥ 1` (resp. `height ≥ 1`) on byte buffers,
`MinColor` returns per channel the minimum of that channel over the row's
samples and `MaxColor` the maximum; the column variants compute the same
over the `height` pixels gathered at byte offsets `(y*width + col)*3`. -/
theorem C9_min_max (row buf : List Nat) (width height col : Nat)
    (hw : 1 ≤ width) (hh : 1 ≤ height)
    (hrow : ∀ v ∈ row, v ≤ 255) (hbuf : ∀ v ∈ buf, v ≤ 255) :
    (rowChannel row 0 width).minimum = ((MinColor row width).r : WithTop Nat) ∧
    (rowChannel row 1 width).minimum = ((MinColor row width).g : WithTop Nat) ∧
    (rowChannel row 2 width).minimum = ((MinColor row width).b : WithTop Nat) ∧
    (rowChannel row 0 width).maximum = ((MaxColor row width).r : WithBot Nat) ∧
    (rowChannel row 1 width).maximum = ((MaxColor row width).g : WithBot Nat) ∧
    (rowChannel row 2 width).maximum = ((MaxColor row width).b : WithBot Nat) ∧
    (colChannel buf 0 col width height).minimum =
      ((MinColorCol buf col width height).r : WithTop Nat) ∧
    (colChannel buf 1 col width height).minimum =
      ((MinColorCol buf col width height).g : WithTop Nat) ∧
    (colChannel buf 2 col width height).minimum =
      ((MinColorCol buf col width height).b : WithTop Nat) ∧
    (colChannel buf 0 col width height).maximum =
      ((MaxColorCol buf col width height).r : WithBot Nat) ∧
    (colChannel buf 1 col width height).maximum =
      ((MaxColorCol buf col width height).g : WithBot Nat) ∧
    (colChannel buf 2 col width height).maximum =
      ((MaxColorCol buf col width height).b : WithBot Nat) := by
  have hminc :
      MinColor row width =
        ⟨(List.range width).foldl
            (fun m x => if row.getD (x * 3) 0 < m then row.getD (x * 3) 0 else m) 255,
         (List.range width).foldl
            (fun m x => if row.getD (x * 3 + 1) 0 < m then row.getD (x * 3 + 1) 0 else m) 255,
         (List.range width).foldl
            (fun m x => if row.getD (x * 3 + 2) 0 < m then row.getD (x * 3 + 2) 0 else m) 255⟩ :=
    foldl_color_comp (List.range width)
      (fun m x => if row.getD (x * 3) 0 < m then row.getD (x * 3) 0 else m)
      (fun m x => if row.getD (x * 3 + 1) 0 < m then row.getD (x * 3 + 1) 0 else m)
      (fun m x => if row.getD (x * 3 + 2) 0 < m then row.getD (x * 3 + 2) 0 else m)
      ⟨255, 255, 255⟩
  have hmaxc :
      MaxColor row width =
        ⟨(List.range width).foldl
            (fun m x => if row.getD (x * 3) 0 > m then row.getD (x * 3) 0 else m) 0,
         (List.range width).foldl
            (fun m x => if row.getD (x * 3 + 1) 0 > m then row.getD (x * 3 + 1) 0 else m) 0,
         (List.range width).foldl
            (fun m x => if row.getD (x * 3 + 2) 0 > m then row.getD (x * 3 + 2) 0 else m) 0⟩ :=
    foldl_color_comp (List.range width)
      (fun m x => if row.getD (x * 3) 0 > m then row.getD (x * 3) 0 else m)
      (fun m x => if row.getD (x * 3 + 1) 0 > m then row.getD (x * 3 + 1) 0 else m)
      (fun m x => if row.getD (x * 3 + 2) 0 > m then row.getD (x * 3 + 2) 0 else m)
      ⟨0, 0, 0⟩
  have hmincc :
      MinColorCol buf col width height =
        ⟨(List.range height).foldl
            (fun m y => if buf.getD ((y * width + col) * 3) 0 < m then
              buf.getD ((y * width + col) * 3) 0 else m) 255,
         (List.range height).foldl
            (fun m y => if buf.getD ((y * width + col) * 3 + 1) 0 < m then
              buf.getD ((y * width + col) * 3 + 1) 0 else m) 255,
         (List.range height).foldl
            (fun m y => if buf.getD ((y * width + col) * 3 + 2) 0 < m then
              buf.getD ((y * width + col) * 3 + 2) 0 else m) 255⟩ :=
    foldl_color_comp (List.range height)
      (fun m y => if buf.getD ((y * width + col) * 3) 0 < m then
        buf.getD ((y * width + col) * 3) 0 else m)
      (fun m y => if buf.getD ((y * width + col) * 3 + 1) 0 < m then
        buf.getD ((y * width + col) * 3 + 1) 0 else m)
      (fun m y => if buf.getD ((y * width + col) * 3 + 2) 0 < m then
        buf.getD ((y * width + col) * 3 + 2) 0 else m)
      ⟨255, 255, 255⟩
  have hmaxcc :
      MaxColorCol buf col width height =
        ⟨(List.range height).foldl
            (fun m y => if buf.getD ((y * width + col) * 3) 0 > m then
              buf.getD ((y * width + col) * 3) 0 else m) 0,
         (List.range height).foldl
            (fun m y => if buf.getD ((y * width + col) * 3 + 1) 0 > m then
              buf.getD ((y * width + col) * 3 + 1) 0 else m) 0,
         (List.range height).foldl
            (fun m y => if buf.getD ((y * width + col) * 3 + 2) 0 > m then
              buf.getD ((y * width + col) * 3 + 2) 0 else m) 0⟩ :=
    foldl_color_comp (List.range height)
      (fun m y => if buf.getD ((y * width + col) * 3) 0 > m then
        buf.getD ((y * width + col) * 3) 0 else m)
      (fun m y => if buf.getD ((y * width + col) * 3 + 1) 0 > m then
        buf.getD ((y * width + col) * 3 + 1) 0 else m)
      (fun m y => if buf.getD ((y * width + col) * 3 + 2) 0 > m then
        buf.getD ((y * width + col) * 3 + 2) 0 else m)
      ⟨0, 0, 0⟩
  rw [hminc, hmaxc, hmincc, hmaxcc]
  refine ⟨?_, ?_, ?_, ?_, ?_, ?_, ?_, ?_, ?_, ?_, ?_, ?_⟩
  · exact minimum_of_fold (fun x => row.getD (x * 3 + 0) 0) width hw
      (fun x _ => getD_le_of_all row _ hrow)
  · exact minimum_of_fold (fun x => row.getD (x * 3 + 1) 0) width hw
      (fun x _ => getD_le_of_all row _ hrow)
  · exact minimum_of_fold (fun x => row.getD (x * 3 + 2) 0) width hw
      (fun x _ => getD_le_of_all row _ hrow)
  · exact maximum_of_fold (fun x => row.getD (x * 3 + 0) 0) width hw
  · exact maximum_of_fold (fun x => row.getD (x * 3 + 1) 0) width hw
  · exact maximum_of_fold (fun x => row.getD (x * 3 + 2) 0) width hw
  · exact minimum_of_fold (fun y => buf.getD ((y * width + col) * 3 + 0) 0) height hh
      (fun y _ => getD_le_of_all buf _ hbuf)
  · exact minimum_of_fold (fun y => buf.getD ((y * width + col) * 3 + 1) 0) height hh
      (fun y _ => getD_le_of_all buf _ hbuf)
  · exact minimum_of_fold (fun y => buf.getD ((y * width + col) * 3 + 2) 0) height hh
      (fun y _ => getD_le_of_all buf _ hbuf)
  · exact maximum_of_fold (fun y => buf.getD ((y * width + col) * 3 + 0) 0) height hh
  · exact maximum_of_fold (fun y => buf.getD ((y * width + col) * 3 + 1) 0) height hh
  · exact maximum_of_fold (fun y => buf.getD ((y * width + col) * 3 + 2) 0) height hh

/-- Witness for C9: row `(5,7,9),(1,2,3)` and the strided column 1 of a
2×2 frame `(0,0,0),(10,20,30) / (0,0,0),(40,5,60)`. -/
theorem C9_min_max_witness :
    (rowChannel [5, 7, 9, 1, 2, 3] 0 2).minimum =
      ((MinColor [5, 7, 9, 1, 2, 3] 2).r : WithTop Nat) ∧
    (rowChannel [5, 7, 9, 1, 2, 3] 1 2).minimum =
      ((MinColor [5, 7, 9, 1, 2, 3] 2).g : WithTop Nat) ∧
    (rowChannel [5, 7, 9, 1, 2, 3] 2 2).minimum =
      ((MinColor [5, 7, 9, 1, 2, 3] 2).b : WithTop Nat) ∧
    (rowChannel [5, 7, 9, 1, 2, 3] 0 2).maximum =
      ((MaxColor [5, 7, 9, 1, 2, 3] 2).r : WithBot Nat) ∧
    (rowChannel [5, 7, 9, 1, 2, 3] 1 2).maximum =
      ((MaxColor [5, 7, 9, 1, 2, 3] 2).g : WithBot Nat) ∧
    (rowChannel [5, 7, 9, 1, 2, 3] 2 2).maximum =
      ((MaxColor [5, 7, 9, 1, 2, 3] 2).b : WithBot Nat) ∧
    (colChannel [0, 0, 0, 10, 20, 30, 0, 0, 0, 40, 5, 60] 0 1 2 2).minimum =
      ((MinColorCol [0, 0, 0, 10, 20, 30, 0, 0, 0, 40, 5, 60] 1 2 2).r : WithTop Nat) ∧
    (colChannel [0, 0, 0, 10, 20, 30, 0, 0, 0, 40, 5, 60] 1 1 2 2).minimum =
      ((MinColorCol [0, 0, 0, 10, 20, 30, 0, 0, 0, 40, 5, 60] 1 2 2).g : WithTop Nat) ∧
    (colChannel [0, 0, 0, 10, 20, 30, 0, 0, 0, 40, 5, 60] 2 1 2 2).minimum =
      ((MinColorCol [0, 0, 0, 10, 20, 30, 0, 0, 0, 40, 5, 60] 1 2 2).b : WithTop Nat) ∧
    (colChannel [0, 0, 0, 10, 20, 30, 0, 0, 0, 40, 5, 60] 0 1 2 2).maximum =
      ((MaxColorCol [0, 0, 0, 10, 20, 30, 0, 0, 0, 40, 5, 60] 1 2 2).r : WithBot Nat) ∧
    (colChannel [0, 0, 0, 10, 20, 30, 0, 0, 0, 40, 5, 60] 1 1 2 2).maximum =
      ((MaxColorCol [0, 0, 0, 10, 20, 30, 0, 0, 0, 40, 5, 60] 1 2 2).g : WithBot Nat) ∧
    (colChannel [0, 0, 0, 10, 20, 30, 0, 0, 0, 40, 5, 60] 2 1 2 2).maximum =
      ((MaxColorCol [0, 0, 0, 10, 20, 30, 0, 0, 0, 40, 5, 60] 1 2 2).b : WithBot Nat) :=
  C9_min_max [5, 7, 9, 1, 2, 3] [0, 0, 0, 10, 20, 30, 0, 0, 0, 40, 5, 60] 2 2 1
    (by decide) (by decide) (by decide) (by decide)

set_option maxRecDepth 16384 in
/-- Claim C1 counterexample (claim says such a run fails with
`BoundExceeded`): with `frameCountEstimate = 10` (capacity 21) and 25 full
1×1 frames streamed, the run *succeeds*, and the finalized image is 21
lines wide — the four excess frames were silently dropped and the
already-written lines were returned as the result. -/
theorem C1_bound_counterexample :
    runSucceeds (generateRun "average" false defaultOrder 1 1 10 (List.replicate 75 0)) =
      true ∧
    runDims (generateRun "average" false defaultOrder 1 1 10 (List.replicate 75 0)) =
      some (21, 1) := by
  decide

/-- Claim C1 (amended): when the decoder stream yields more full frames
than the pre-sized capacity, the run still succeeds — writes beyond the
capacity are silent no-ops (the excess frames are dropped) and the
finalized image is cropped to exactly the capacity along the growing
axis. -/
theorem C1_overflow_truncates (mode : String) (orderOf : List Nat → List Nat)
    (vertical : Bool) (width height frameCount : Nat) (frames : List (List Nat))
    (hW : 1 ≤ width) (hH : 1 ≤ height) (hF : 1 ≤ frameCount)
    (hlen : ∀ f ∈ frames, f.length = width * height * 3)
    (hover : maxFrames frameCount < frames.length) :
    runSucceeds (generateRun mode vertical orderOf width height frameCount
        frames.flatten) = true ∧
    runDims (generateRun mode vertical orderOf width height frameCount frames.flatten) =
      some (if vertical then width else maxFrames frameCount,
            if vertical then maxFrames frameCount else height) := by
  have hd := generateRun_dims mode orderOf vertical width height frameCount frames hW hH hF hlen
  rw [Nat.min_eq_right (by omega)] at hd
  exact ⟨runSucceeds_of_dims _ _ hd, hd⟩

/-- Witness for the amended C1: 13 one-pixel frames against capacity
`maxFrames 1 = 11`. -/
theorem C1_overflow_truncates_witness :
    runSucceeds (generateRun "max" false defaultOrder 1 1 1
        (List.replicate 13 (List.replicate 3 0)).flatten) = true ∧
    runDims (generateRun "max" false defaultOrder 1 1 1
        (List.replicate 13 (List.replicate 3 0)).flatten) = some (11, 1) := by
  have h := C1_overflow_truncates "max" defaultOrder false 1 1 1
    (List.replicate 13 (List.replicate 3 0))
    (by decide) (by decide) (by decide) (by decide) (by decide)
  simpa using h

set_option maxRecDepth 16384 in
/-- Claim C2 counterexample (claim says such a run fails with
`TruncatedStream`): a 1×1 stream of one full frame followed by a 1-byte
partial frame completes *successfully* — `io.ErrUnexpectedEOF` is treated
exactly like `io.EOF`, i.e. as normal end of stream. -/
theorem C2_truncated_counterexample :
    runSucceeds (generateRun "average" false defaultOrder 1 1 1 [0, 0, 0, 7]) = true ∧
    runDims (generateRun "average" false defaultOrder 1 1 1 [0, 0, 0, 7]) =
      some (1, 1) := by
  decide

/-- Claim C2 (amended): a trailing partial frame (more than zero but fewer
than `width*height*3` bytes) is silently discarded — the run completes
normally and produces exactly the result of the stream without the
fragment, so the partial bytes never shift or corrupt the last output
line; a zero-byte end of stream is likewise normal completion. -/
theorem C2_trailing_fragment_discarded (mode : String) (orderOf : List Nat → List Nat)
    (vertical : Bool) (width height frameCount : Nat)
    (frames : List (List Nat)) (extra : List Nat)
    (hW : 1 ≤ width) (hH : 1 ≤ height)
    (hlen : ∀ f ∈ frames, f.length = width * height * 3)
    (hextra : extra.length < width * height * 3) :
    generateRun mode vertical orderOf width height frameCount (frames.flatten ++ extra) =
      generateRun mode vertical orderOf width height frameCount frames.flatten := by
  have hn : 1 ≤ width * height * 3 := Nat.mul_pos (Nat.mul_pos hW hH) (by omega)
  unfold generateRun
  rw [chunkFrames_join_append _ _ _ hn hlen hextra, chunkFrames_join _ _ hn hlen]

/-- Witness for the amended C2: one full 1×1 frame plus one stray byte. -/
theorem C2_trailing_fragment_discarded_witness :
    generateRun "average" false defaultOrder 1 1 1 ([[0, 0, 0]].flatten ++ [7]) =
      generateRun "average" false defaultOrder 1 1 1 [[0, 0, 0]].flatten :=
  C2_trailing_fragment_discarded "average" defaultOrder false 1 1 1 [[0, 0, 0]] [7]
    (by decide) (by decide) (by decide) (by decide)

/-- Claim C6: a synthetic decoder stream of exactly `N` full frames at
geometry `W×H`, with `N` within the canvas capacity, finalizes to an image
of length exactly `N` along the growing axis and the video's dimension on
the fixed axis: horizontal runs are `N` wide and `H` tall, vertical runs
are `W` wide and `N` tall. -/
theorem C6_finalized_dims (mode : String) (orderOf : List Nat → List Nat)
    (vertical : Bool) (width height frameCount : Nat) (frames : List (List Nat))
    (hW : 1 ≤ width) (hH : 1 ≤ height) (hF : 1 ≤ frameCount)
    (hlen : ∀ f ∈ frames, f.length = width * height * 3)
    (hcap : frames.length ≤ maxFrames frameCount) :
    runDims (generateRun mode vertical orderOf width height frameCount frames.flatten) =
      some (if vertical then width else frames.length,
            if vertical then frames.length else height) := by
  rw [generateRun_dims mode orderOf vertical width height frameCount frames hW hH hF hlen,
    Nat.min_eq_left hcap]

/-- Witness for C6: three 2×2 frames in vertical orientation finalize to a
2-wide, 3-tall image. -/
theorem C6_finalized_dims_witness :
    runDims (generateRun "min" true defaultOrder 2 2 3
        (List.replicate 3 (List.replicate 12 0)).flatten) = some (2, 3) := by
  have h := C6_finalized_dims "min" defaultOrder true 2 2 3
    (List.replicate 3 (List.replicate 12 0))
    (by decide) (by decide) (by decide) (by decide) (by decide)
  simpa using h

set_option maxRecDepth 16384 in
/-- Claim C8 counterexample: the pre-streaming validation accepts a
degenerate geometry with zero *width* (height 1, frame count 1) — only
`frameCount == 0 || height == 0` is checked — and such a run does not
fail with the invalid-properties error, so the pipeline does not fail
before streaming begins. -/
theorem C8_degenerate_counterexample :
    invalidVideoProps 0 1 1 = false ∧
    isInvalidPropsError (generateRun "average" false defaultOrder 0 1 1 []) = false := by
  decide

/-- Claim C8 (amended): the pipeline fails before streaming exactly when
the frame count or the height is zero; a zero width alone is not
rejected. -/
theorem C8_validation (width height frameCount : Nat) (mode : String) (vertical : Bool)
    (orderOf : List Nat → List Nat) (stream : List Nat) :
    (invalidVideoProps width height frameCount = true ↔ frameCount = 0 ∨ height = 0) ∧
    (frameCount = 0 ∨ height = 0 →
      generateRun mode vertical orderOf width height frameCount stream =
        Except.error GenError.invalidVideoProperties) := by
  constructor
  · simp [invalidVideoProps]
  · intro h
    unfold generateRun
    rw [if_pos]
    simp only [invalidVideoProps, Bool.or_eq_true, beq_iff_eq]
    omega

/-- Witness for the amended C8 at frame count zero. -/
theorem C8_validation_witness :
    (invalidVideoProps 3 1 0 = true ↔ (0 : Nat) = 0 ∨ (1 : Nat) = 0) ∧
    generateRun "average" false defaultOrder 3 1 0 [] =
      Except.error GenError.invalidVideoProperties := by
  have h := C8_validation 3 1 0 "average" false defaultOrder []
  exact ⟨h.1, h.2 (Or.inl rfl)⟩
